import Mathlib

/-!
Verification of the core pipeline of the `upbit_rsi_live` application
(`src/index.tsx`): the volume formatter, the Wilder RSI calculator, the
market-snapshot fetcher's batching/ranking logic, and the interval-data
fetcher's per-market computation and merge.

Numbers are modelled as rationals (the arithmetic in the source is on JS
numbers; all claims under scrutiny involve exact arithmetic only).  A JS
field that can be `undefined`, `null` or a number is modelled by the
three-state type `JsVal`.  Network responses are modelled by explicit data
so that the pure data flow of each fetch operation can be stated and
proved.
-/

namespace UpbitRsiLive

/-- A JS value that is `undefined`, `null`, or a number. -/
inductive JsVal where
  | undef : JsVal
  | null : JsVal
  | num : ℚ → JsVal
deriving DecidableEq

/-- A ticker record joined with market metadata, plus the per-interval
fields (`MarketWithData` in the source). -/
structure MarketWithData where
  market : String
  korean_name : String
  english_name : String
  acc_trade_price_24h : ℚ
  changeRate : JsVal
  rsi : JsVal
deriving DecidableEq

/-- One candle record as used by the source (`opening_price`,
`trade_price`; `trade_price` is the closing price). -/
structure Candle where
  market : String
  opening_price : ℚ
  trade_price : ℚ
deriving DecidableEq

/-- `RSI_PERIOD` constant of the source. -/
def RSI_PERIOD : ℕ := 14

/-! ### Volume formatter (`formatVolume`, src/index.tsx lines 55-65) -/

/-- JS `Math.round`: round half toward positive infinity. -/
def jsRound (q : ℚ) : ℤ := Int.floor (q + 1/2)

/-- JS `Number.prototype.toFixed(2)` on an exact rational: the integer
`n` with `n/100` closest to the value (larger `n` on ties), printed with
two decimals.  Faithful for the non-negative inputs the program uses. -/
def toFixed2 (q : ℚ) : String :=
  let n : ℤ := Int.floor (q * 100 + 1/2)
  let ip : ℤ := n / 100
  let fp : ℕ := (n % 100).toNat
  toString ip ++ "." ++ (if fp < 10 then "0" ++ toString fp else toString fp)

/-- Insert a comma after every three characters of a reversed digit
list (helper for locale thousand grouping). -/
def commaRev : List Char → List Char
  | [] => []
  | [a] => [a]
  | [a, b] => [a, b]
  | [a, b, c] => [a, b, c]
  | a :: b :: c :: rest => a :: b :: c :: ',' :: commaRev rest

/-- Locale thousand-separated rendering of a natural number
(JS `toLocaleString` with comma grouping). -/
def toLocaleStringNat (n : ℕ) : String :=
  String.mk ((commaRev (toString n).data.reverse).reverse)

/-- Locale thousand-separated rendering of an integer. -/
def toLocaleStringInt (n : ℤ) : String :=
  if n < 0 then "-" ++ toLocaleStringNat n.natAbs else toLocaleStringNat n.toNat

/-- `formatVolume` (src/index.tsx lines 55-65). -/
def formatVolume (volume : ℚ) : String :=
  let trillion : ℚ := 1000000000000
  let billion : ℚ := 1000000000
  if trillion ≤ volume then
    toFixed2 (volume / trillion) ++ "조"
  else if billion ≤ volume then
    toFixed2 (volume / billion) ++ "억"
  else
    toLocaleStringInt (jsRound (volume / 1000000)) ++ "백만"

/-! ### RSI calculator (`calculateRSI`, src/index.tsx lines 67-93) -/

/-- `prices.slice(1).map((price, i) => price - prices[i])`: the list of
consecutive deltas. -/
def changesOf (prices : List ℚ) : List ℚ :=
  List.zipWith (fun a b => a - b) prices.tail prices

/-- One iteration of the Wilder smoothing loop (src/index.tsx lines
79-85); the state is the pair `(avgGain, avgLoss)`. -/
def wilderStep (period : ℕ) (st : ℚ × ℚ) (change : ℚ) : ℚ × ℚ :=
  let gain := if 0 < change then change else 0
  let loss := if change < 0 then |change| else 0
  ((st.1 * ((period : ℚ) - 1) + gain) / (period : ℚ),
   (st.2 * ((period : ℚ) - 1) + loss) / (period : ℚ))

/-- `initialGains` of the source: sum of the positive changes among
the first `period` changes. -/
def initialGains (changes : List ℚ) (period : ℕ) : ℚ :=
  ((changes.take period).filter (fun c => 0 < c)).sum

/-- `initialLosses` of the source: sum of the absolute values of the
negative changes among the first `period` changes. -/
def initialLosses (changes : List ℚ) (period : ℕ) : ℚ :=
  (((changes.take period).filter (fun c => c < 0)).map (fun c => |c|)).sum

/-- The `(avgGain, avgLoss)` pair after the smoothing loop of
`calculateRSI` has run over all changes past the seed window. -/
def finalAvgs (changes : List ℚ) (period : ℕ) : ℚ × ℚ :=
  (changes.drop period).foldl (wilderStep period)
    (initialGains changes period / (period : ℚ), initialLosses changes period / (period : ℚ))

/-- `calculateRSI` (src/index.tsx lines 67-93).  Returns `none` for the
JS `null`. -/
def calculateRSI (prices : List ℚ) (period : ℕ) : Option ℚ :=
  if prices.length ≤ period then
    none
  else
    if (finalAvgs (changesOf prices) period).2 = 0 then some 100
    else some (100 - 100 /
      (1 + (finalAvgs (changesOf prices) period).1 / (finalAvgs (changesOf prices) period).2))

/-! ### The RSI algorithm as described by the specification (§4.2),
used to state the refinement claim against `calculateRSI`. -/

/-- Spec §4.2 step 1: the `L−1` deltas between consecutive prices. -/
def specDeltas : List ℚ → List ℚ
  | a :: b :: rest => (b - a) :: specDeltas (b :: rest)
  | _ => []

/-- The positive part of a delta (spec: "gain ... the positive part of
that delta (0 otherwise)"). -/
def gainPart (d : ℚ) : ℚ := if 0 < d then d else 0

/-- The absolute negative part of a delta. -/
def lossPart (d : ℚ) : ℚ := if d < 0 then -d else 0

/-- Spec §4.2 step 2: seed average gain, the mean over the first `P`
deltas of their positive parts (0 if none is positive). -/
def specSeedGain (deltas : List ℚ) (P : ℕ) : ℚ :=
  ((deltas.take P).map gainPart).sum / (P : ℚ)

/-- Spec §4.2 step 2: seed average loss. -/
def specSeedLoss (deltas : List ℚ) (P : ℕ) : ℚ :=
  ((deltas.take P).map lossPart).sum / (P : ℚ)

/-- Spec §4.2 step 3: fold each subsequent delta in by Wilder
smoothing. -/
def specSmooth (P : ℕ) : ℚ × ℚ → List ℚ → ℚ × ℚ
  | st, [] => st
  | st, d :: rest =>
      specSmooth P
        ((st.1 * ((P : ℚ) - 1) + gainPart d) / (P : ℚ),
         (st.2 * ((P : ℚ) - 1) + lossPart d) / (P : ℚ)) rest

/-- The `(avgGain, avgLoss)` pair prescribed by spec §4.2 steps 1-3. -/
def specFinal (prices : List ℚ) (P : ℕ) : ℚ × ℚ :=
  specSmooth P (specSeedGain (specDeltas prices) P, specSeedLoss (specDeltas prices) P)
    ((specDeltas prices).drop P)

/-- Spec §4.2 steps 1-5 assembled: the RSI value the spec prescribes
for a price history of length `L > P`. -/
def rsiSpec (prices : List ℚ) (P : ℕ) : ℚ :=
  if (specFinal prices P).2 = 0 then 100
  else 100 - 100 / (1 + (specFinal prices P).1 / (specFinal prices P).2)

/-! ### Market snapshot fetcher (`fetchTopMarkets`, src/index.tsx
lines 106-145): batching and ranking logic. -/

/-- `BATCH_SIZE` constant of the source. -/
def BATCH_SIZE : ℕ := 100

/-- Fuel-driven splitting of the code list into consecutive slices of
`BATCH_SIZE` (the loop `for (i = 0; i < n; i += BATCH_SIZE)
slice(i, i + BATCH_SIZE)`).  The fuel is only there to make the
recursion structural; `tickerBatches` supplies enough. -/
def batchAux : ℕ → List String → List (List String)
  | _, [] => []
  | 0, _ :: _ => []
  | fuel + 1, c :: cs => (c :: cs).take BATCH_SIZE :: batchAux fuel ((c :: cs).drop BATCH_SIZE)

/-- The sequence of ticker-request batches issued by `fetchTopMarkets`
for a given list of KRW market codes (src/index.tsx lines 117-125). -/
def tickerBatches (codes : List String) : List (List String) :=
  batchAux codes.length codes

/-- The descending-by-volume sort of the merged records
(`.sort((a, b) => b.acc_trade_price_24h - a.acc_trade_price_24h)`).
Modelled by insertion sort; the source's comparator sort agrees with it
on every list with pairwise distinct volumes, the only case the claims
quantify over. -/
def sortDesc (l : List MarketWithData) : List MarketWithData :=
  l.insertionSort (fun a b => b.acc_trade_price_24h ≤ a.acc_trade_price_24h)

/-- The ranking step of `fetchTopMarkets` (src/index.tsx lines
134-136): sort merged records descending by 24h volume and keep the
first 15. -/
def top15Markets (combinedData : List MarketWithData) : List MarketWithData :=
  (sortDesc combinedData).take 15

/-! ### Interval data fetcher (`fetchIntervalData` and the interval
effect, src/index.tsx lines 150-200). -/

/-- The per-market record produced by one candle request
(`{ market, changeRate, rsi }` with `null` modelled by `none`). -/
structure IntervalResult where
  market : String
  changeRate : Option ℚ
  rsi : Option ℚ
deriving DecidableEq

/-- Outcome of one per-market candle request, as observed by the code
after `fetch` and `response.json()`: a non-2xx response (`notOk`), a
body that parses to a falsy value (`nullish`), or a candle array. -/
inductive CandleResp where
  | notOk : CandleResp
  | nullish : CandleResp
  | arr : List Candle → CandleResp
deriving DecidableEq

/-- The successful-response branch (src/index.tsx lines 165-177):
change rate from the newest candle (index 0), RSI only when the candle
count exceeds `RSI_PERIOD`, computed on the reversed (oldest-first)
closing prices. -/
def candleResult (code : String) (candleData : List Candle) : IntervalResult :=
  match candleData with
  | [] => ⟨code, none, none⟩
  | latest :: rest =>
      ⟨code,
       some ((latest.trade_price - latest.opening_price) / latest.opening_price * 100),
       if RSI_PERIOD < (latest :: rest).length then
         calculateRSI (((latest :: rest).map (fun c => c.trade_price)).reverse) RSI_PERIOD
       else none⟩

/-- The whole per-market task of `fetchIntervalData` (src/index.tsx
lines 161-178): a failed request or falsy payload yields
`{changeRate: null, rsi: null}`, otherwise the candle data is
processed. -/
def marketIntervalResult (code : String) (resp : CandleResp) : IntervalResult :=
  match resp with
  | CandleResp.notOk => ⟨code, none, none⟩
  | CandleResp.nullish => ⟨code, none, none⟩
  | CandleResp.arr candleData => candleResult code candleData

/-- `Promise.all` over the per-market tasks (src/index.tsx line 181):
one result per ranked market, in order.  `resp` gives the response each
market's candle request settles with. -/
def fetchIntervalResults (ms : List MarketWithData) (resp : String → CandleResp) :
    List IntervalResult :=
  ms.map (fun m => marketIntervalResult m.market (resp m.market))

/-- `new Map(results.map(...)).get(code)`: the last result whose
market equals `code`, if any (later duplicate keys overwrite earlier
ones in a JS `Map`). -/
def intervalDataGet (results : List IntervalResult) (code : String) : Option IntervalResult :=
  results.reverse.find? (fun r => r.market == code)

/-- The merge of interval results into the ranked list
(src/index.tsx lines 184-190).  When `code` is absent from the map,
`get(...)?.changeRate` is `undefined`, so both fields become
`JsVal.undef`. -/
def mergeIntervalData (ms : List MarketWithData) (results : List IntervalResult) :
    List MarketWithData :=
  ms.map (fun m =>
    match intervalDataGet results m.market with
    | some r =>
        { m with
          changeRate := match r.changeRate with | none => JsVal.null | some q => JsVal.num q,
          rsi := match r.rsi with | none => JsVal.null | some q => JsVal.num q }
    | none => { m with changeRate := JsVal.undef, rsi := JsVal.undef })

/-- The interval effect (src/index.tsx lines 150-200): the new ranked
list together with the list of market codes for which a candle request
is issued.  The `24h` branch resets both per-interval fields to
`undefined` and issues no request. -/
def intervalEffect (selectedInterval : String) (ms : List MarketWithData)
    (resp : String → CandleResp) : List MarketWithData × List String :=
  if selectedInterval = "24h" then
    (ms.map (fun m => { m with changeRate := JsVal.undef, rsi := JsVal.undef }), [])
  else if ms.length = 0 then
    (ms, [])
  else
    (mergeIntervalData ms (fetchIntervalResults ms resp), ms.map (fun m => m.market))

/-! ### Concrete fixtures used by the witness instantiations. -/

/-- Example ranked market with a failing candle request. -/
def exMarketA : MarketWithData := ⟨"KRW-AAA", "에이", "Alpha", 10, JsVal.undef, JsVal.undef⟩

/-- Example ranked market with a successful candle request. -/
def exMarketB : MarketWithData := ⟨"KRW-BBB", "비", "Beta", 20, JsVal.undef, JsVal.undef⟩

/-- Example ranked market holding previously computed interval values. -/
def exMarketD : MarketWithData := ⟨"KRW-DDD", "디", "Delta", 5, JsVal.num 1, JsVal.num 55⟩

/-- Example candle for the successful response. -/
def exCandle : Candle := ⟨"KRW-BBB", 2, 3⟩

/-- Example response environment: the request for `KRW-AAA` fails,
every other request returns one candle. -/
def exResp : String → CandleResp := fun code =>
  if code = "KRW-AAA" then CandleResp.notOk else CandleResp.arr [exCandle]

/-- Relation the descending sort orders by. -/
instance : IsTotal MarketWithData
    (fun a b => b.acc_trade_price_24h ≤ a.acc_trade_price_24h) :=
  ⟨fun a b => le_total b.acc_trade_price_24h a.acc_trade_price_24h⟩

instance : IsTrans MarketWithData
    (fun a b => b.acc_trade_price_24h ≤ a.acc_trade_price_24h) :=
  ⟨fun _ _ _ hab hbc => le_trans hbc hab⟩

/-! ## Theorems -/

/-! ### RSI calculator: refinement of the spec algorithm and bounds -/

theorem changesOf_eq_specDeltas : ∀ prices : List ℚ, changesOf prices = specDeltas prices
  | [] => rfl
  | [_] => rfl
  | a :: b :: rest => by
      show (b - a) :: changesOf (b :: rest) = (b - a) :: specDeltas (b :: rest)
      rw [changesOf_eq_specDeltas (b :: rest)]

theorem filter_pos_sum_eq (l : List ℚ) :
    (l.filter (fun c => 0 < c)).sum = (l.map gainPart).sum := by
  induction l with
  | nil => rfl
  | cons a t ih =>
      by_cases ha : 0 < a
      · simp [List.filter_cons, ha, gainPart, ih]
      · simp [List.filter_cons, ha, gainPart, ih]

theorem filter_neg_abs_sum_eq (l : List ℚ) :
    ((l.filter (fun c => c < 0)).map (fun c => |c|)).sum = (l.map lossPart).sum := by
  induction l with
  | nil => rfl
  | cons a t ih =>
      by_cases ha : a < 0
      · simp [List.filter_cons, ha, lossPart, ih, abs_of_neg ha]
      · simp [List.filter_cons, ha, lossPart, ih]

theorem foldl_wilderStep_eq_specSmooth (period : ℕ) :
    ∀ (l : List ℚ) (st : ℚ × ℚ), l.foldl (wilderStep period) st = specSmooth period st l
  | [], _ => rfl
  | d :: rest, st => by
      have hstep : wilderStep period st d =
          ((st.1 * ((period : ℚ) - 1) + gainPart d) / (period : ℚ),
           (st.2 * ((period : ℚ) - 1) + lossPart d) / (period : ℚ)) := by
        by_cases hd : d < 0
        · have hnp : ¬ (0 < d) := by linarith
          simp [wilderStep, gainPart, lossPart, hd, hnp, abs_of_neg hd]
        · simp [wilderStep, gainPart, lossPart, hd]
      show (rest.foldl (wilderStep period) (wilderStep period st d)) = _
      rw [hstep, foldl_wilderStep_eq_specSmooth period rest]
      rfl

/-- C1: for every ordered price sequence with `L > P`, `calculateRSI`
computes exactly the spec's algorithm: seed averages as the mean over
the first `P` deltas of their positive (resp. absolute negative) parts,
Wilder smoothing `avg := (avg*(P−1) + part)/P` for every later delta,
and the final `100` when the smoothed loss is `0`, otherwise
`100 − 100/(1 + avgGain/avgLoss)`. -/
theorem calculateRSI_eq_rsiSpec (prices : List ℚ) (period : ℕ)
    (h : period < prices.length) :
    calculateRSI prices period = some (rsiSpec prices period) := by
  have hfin : finalAvgs (changesOf prices) period = specFinal prices period := by
    unfold finalAvgs specFinal initialGains initialLosses specSeedGain specSeedLoss
    rw [changesOf_eq_specDeltas, filter_pos_sum_eq, filter_neg_abs_sum_eq,
      foldl_wilderStep_eq_specSmooth]
  unfold calculateRSI rsiSpec
  rw [if_neg (by omega : ¬ prices.length ≤ period), hfin]
  split
  · rfl
  · rfl

/-- Witness for C1 at the concrete history `[1, 2, 3]`, period 1. -/
theorem calculateRSI_eq_rsiSpec_witness :
    calculateRSI [1, 2, 3] 1 = some (rsiSpec [1, 2, 3] 1) :=
  calculateRSI_eq_rsiSpec [1, 2, 3] 1 (by norm_num)

/-- C4: for every price sequence and period `P ≥ 1`, `calculateRSI`
returns `null` exactly when `L ≤ P`, and returns a number whenever
`L > P`. -/
theorem calculateRSI_null_iff (prices : List ℚ) (period : ℕ) (hP : 1 ≤ period) :
    (calculateRSI prices period = none ↔ prices.length ≤ period) ∧
    (period < prices.length → ∃ r : ℚ, calculateRSI prices period = some r) := by
  constructor
  · constructor
    · intro hnone
      by_contra hlen
      rw [calculateRSI, if_neg hlen] at hnone
      revert hnone
      split
      · intro hc
        exact Option.noConfusion hc
      · intro hc
        exact Option.noConfusion hc
    · intro hlen
      rw [calculateRSI, if_pos hlen]
  · intro hlen
    rw [calculateRSI, if_neg (by omega : ¬ prices.length ≤ period)]
    split
    · exact ⟨100, rfl⟩
    · exact ⟨_, rfl⟩

/-- Witness for C4 at the two-point history `[1, 2]`, period 14. -/
theorem calculateRSI_null_iff_witness :
    (calculateRSI [1, 2] 14 = none ↔ ([1, 2] : List ℚ).length ≤ 14) ∧
    (14 < ([1, 2] : List ℚ).length → ∃ r : ℚ, calculateRSI [1, 2] 14 = some r) :=
  calculateRSI_null_iff [1, 2] 14 (by norm_num)

theorem foldl_wilderStep_nonneg (period : ℕ) (hP : 1 ≤ period) :
    ∀ (l : List ℚ) (st : ℚ × ℚ), 0 ≤ st.1 → 0 ≤ st.2 →
      0 ≤ (l.foldl (wilderStep period) st).1 ∧ 0 ≤ (l.foldl (wilderStep period) st).2
  | [], _, h1, h2 => ⟨h1, h2⟩
  | d :: rest, st, h1, h2 => by
      have hper : (0:ℚ) ≤ (period : ℚ) - 1 := by
        have hc : (1:ℚ) ≤ (period : ℚ) := by exact_mod_cast hP
        linarith
      have hgain : 0 ≤ (if 0 < d then d else 0) := by
        by_cases hd : 0 < d
        · rw [if_pos hd]; linarith
        · rw [if_neg hd]
      have hloss : 0 ≤ (if d < 0 then |d| else 0) := by
        by_cases hd : d < 0
        · rw [if_pos hd]; exact abs_nonneg d
        · rw [if_neg hd]
      have hstep1 : 0 ≤ (wilderStep period st d).1 := by
        unfold wilderStep
        exact div_nonneg (by nlinarith) (by positivity)
      have hstep2 : 0 ≤ (wilderStep period st d).2 := by
        unfold wilderStep
        exact div_nonneg (by nlinarith) (by positivity)
      exact foldl_wilderStep_nonneg period hP rest (wilderStep period st d) hstep1 hstep2

theorem initialGains_nonneg (changes : List ℚ) (period : ℕ) :
    0 ≤ initialGains changes period := by
  apply List.sum_nonneg
  intro x hx
  have hmem := (List.mem_filter.mp hx).2
  have hx0 : (0:ℚ) < x := by simpa using hmem
  exact le_of_lt hx0

theorem initialLosses_nonneg (changes : List ℚ) (period : ℕ) :
    0 ≤ initialLosses changes period := by
  apply List.sum_nonneg
  intro x hx
  obtain ⟨c, _, rfl⟩ := List.mem_map.mp hx
  exact abs_nonneg c

theorem finalAvgs_nonneg (changes : List ℚ) (period : ℕ) (hP : 1 ≤ period) :
    0 ≤ (finalAvgs changes period).1 ∧ 0 ≤ (finalAvgs changes period).2 := by
  unfold finalAvgs
  exact foldl_wilderStep_nonneg period hP _ _
    (div_nonneg (initialGains_nonneg _ _) (by positivity))
    (div_nonneg (initialLosses_nonneg _ _) (by positivity))

/-- C5: for every finite non-constant price sequence with `L > P`
(period at least 1), the value `calculateRSI` returns lies in
`[0, 100]`. -/
theorem calculateRSI_mem_Icc (prices : List ℚ) (period : ℕ) (hP : 1 ≤ period)
    (hL : period < prices.length)
    (hnc : ∃ a ∈ prices, ∃ b ∈ prices, a ≠ b) :
    ∃ r : ℚ, calculateRSI prices period = some r ∧ 0 ≤ r ∧ r ≤ 100 := by
  obtain ⟨hg, hl⟩ := finalAvgs_nonneg (changesOf prices) period hP
  rw [calculateRSI, if_neg (by omega : ¬ prices.length ≤ period)]
  by_cases h0 : (finalAvgs (changesOf prices) period).2 = 0
  · exact ⟨100, by rw [if_pos h0], by norm_num, by norm_num⟩
  · refine ⟨_, by rw [if_neg h0], ?_, ?_⟩
    · have hlpos : 0 < (finalAvgs (changesOf prices) period).2 :=
        lt_of_le_of_ne hl (Ne.symm h0)
      have hrs : 0 ≤ (finalAvgs (changesOf prices) period).1 /
          (finalAvgs (changesOf prices) period).2 := div_nonneg hg hl
      have hdiv : 100 / (1 + (finalAvgs (changesOf prices) period).1 /
          (finalAvgs (changesOf prices) period).2) ≤ 100 :=
        div_le_self (by norm_num) (by linarith)
      linarith
    · have hrs : 0 ≤ (finalAvgs (changesOf prices) period).1 /
          (finalAvgs (changesOf prices) period).2 := div_nonneg hg hl
      have hdiv : 0 < 100 / (1 + (finalAvgs (changesOf prices) period).1 /
          (finalAvgs (changesOf prices) period).2) :=
        div_pos (by norm_num) (by linarith)
      linarith

/-- Witness for C5 at the non-constant history `[1, 2]`, period 1. -/
theorem calculateRSI_mem_Icc_witness :
    ∃ r : ℚ, calculateRSI [1, 2] 1 = some r ∧ 0 ≤ r ∧ r ≤ 100 :=
  calculateRSI_mem_Icc [1, 2] 1 (by norm_num) (by norm_num)
    ⟨1, by simp, 2, by simp, by norm_num⟩

/-! ### Interval data fetcher: per-market degradation and merge -/

theorem marketIntervalResult_market (code : String) (r : CandleResp) :
    (marketIntervalResult code r).market = code := by
  cases r with
  | notOk => rfl
  | nullish => rfl
  | arr l => cases l with
    | nil => rfl
    | cons c cs => rfl

/-- C3: a malformed (falsy) or empty candle payload yields
`{changeRate: null, rsi: null}` for that market, and the interval fetch
still produces one result per input market, in order, without raising
an error. -/
theorem malformed_payload_yields_nulls (ms : List MarketWithData)
    (resp : String → CandleResp) (code : String) :
    marketIntervalResult code CandleResp.nullish = ⟨code, none, none⟩ ∧
    marketIntervalResult code (CandleResp.arr []) = ⟨code, none, none⟩ ∧
    (fetchIntervalResults ms resp).length = ms.length ∧
    (fetchIntervalResults ms resp).map (fun r => r.market) = ms.map (fun m => m.market) := by
  refine ⟨rfl, rfl, by simp [fetchIntervalResults], ?_⟩
  simp [fetchIntervalResults, Function.comp, marketIntervalResult_market]

/-- C2 counterexample: a market absent from the result set does NOT
retain its previous `changeRate`/`rsi`; the merge overwrites them (with
`undefined`).  Here `KRW-DDD` is absent from the empty result set, yet
the merged entry differs from the original. -/
theorem mergeIntervalData_overwrites_absent :
    (exMarketD.market ∉ ([] : List IntervalResult).map (fun r => r.market)) ∧
    mergeIntervalData [exMarketD] [] ≠ [exMarketD] := by
  constructor
  · simp
  · intro hcontra
    simp [mergeIntervalData, intervalDataGet, exMarketD] at hcontra

/-- C2 amended: after the merge, every market whose code is not present
in the result set has its `changeRate` and `rsi` overwritten to
`undefined` (all other fields retained), rather than keeping its
previous values. -/
theorem mergeIntervalData_absent_market (ms : List MarketWithData)
    (results : List IntervalResult) (i : ℕ) (m : MarketWithData)
    (hm : ms[i]? = some m)
    (habs : m.market ∉ results.map (fun r => r.market)) :
    (mergeIntervalData ms results)[i]? =
      some { m with changeRate := JsVal.undef, rsi := JsVal.undef } := by
  have hget : intervalDataGet results m.market = none := by
    rw [intervalDataGet, List.find?_eq_none]
    intro r hr
    have hrmem : r ∈ results := by simpa using hr
    have hne : r.market ≠ m.market := by
      intro he
      exact habs (he ▸ List.mem_map_of_mem (fun r => r.market) hrmem)
    simpa using hne
  rw [mergeIntervalData, List.getElem?_map, hm]
  simp [hget]

/-- Witness for the amended C2: merging an empty result set into the
one-market list `[exMarketD]`. -/
theorem mergeIntervalData_absent_market_witness :
    (mergeIntervalData [exMarketD] [])[0]? =
      some { exMarketD with changeRate := JsVal.undef, rsi := JsVal.undef } :=
  mergeIntervalData_absent_market [exMarketD] [] 0 exMarketD rfl (by simp)

/-- C8: in one interval fetch, a market whose candle request fails gets
`{changeRate: null, rsi: null}`, while a sibling market with a
successful non-empty response receives its computed change rate (and
RSI per the candle count); the operation still yields one result per
market. -/
theorem perMarket_failure_localized (ms : List MarketWithData) (resp : String → CandleResp)
    (i j : ℕ) (hij : i ≠ j) (mi mj : MarketWithData)
    (hmi : ms[i]? = some mi) (hmj : ms[j]? = some mj)
    (hfail : resp mi.market = CandleResp.notOk)
    (c : Candle) (cs : List Candle) (hok : resp mj.market = CandleResp.arr (c :: cs)) :
    (fetchIntervalResults ms resp)[i]? = some ⟨mi.market, none, none⟩ ∧
    (fetchIntervalResults ms resp)[j]? = some (candleResult mj.market (c :: cs)) ∧
    (candleResult mj.market (c :: cs)).changeRate =
      some ((c.trade_price - c.opening_price) / c.opening_price * 100) ∧
    (fetchIntervalResults ms resp).length = ms.length := by
  refine ⟨?_, ?_, rfl, by simp [fetchIntervalResults]⟩
  · rw [fetchIntervalResults, List.getElem?_map, hmi]
    simp [marketIntervalResult, hfail]
  · rw [fetchIntervalResults, List.getElem?_map, hmj]
    simp [marketIntervalResult, hok]

/-- Witness for C8: market `KRW-AAA` fails while its sibling `KRW-BBB`
succeeds with one candle. -/
theorem perMarket_failure_localized_witness :
    (fetchIntervalResults [exMarketA, exMarketB] exResp)[0]? =
      some ⟨exMarketA.market, none, none⟩ ∧
    (fetchIntervalResults [exMarketA, exMarketB] exResp)[1]? =
      some (candleResult exMarketB.market [exCandle]) ∧
    (candleResult exMarketB.market [exCandle]).changeRate =
      some ((exCandle.trade_price - exCandle.opening_price) / exCandle.opening_price * 100) ∧
    (fetchIntervalResults [exMarketA, exMarketB] exResp).length = 2 :=
  perMarket_failure_localized [exMarketA, exMarketB] exResp 0 1 (by norm_num)
    exMarketA exMarketB rfl rfl (by simp [exResp, exMarketA]) exCandle []
    (by simp [exResp, exMarketB])

/-- C9: selecting the 24-hour baseline view issues no candle request
and maps every ranked market to a copy whose `changeRate` and `rsi` are
`undefined` and whose every other field is unchanged. -/
theorem interval24h_short_circuit (ms : List MarketWithData) (resp : String → CandleResp) :
    (intervalEffect "24h" ms resp).2 = [] ∧
    (intervalEffect "24h" ms resp).1.length = ms.length ∧
    ∀ (i : ℕ) (m : MarketWithData), ms[i]? = some m →
      (intervalEffect "24h" ms resp).1[i]? =
        some { m with changeRate := JsVal.undef, rsi := JsVal.undef } := by
  refine ⟨rfl, by simp [intervalEffect], ?_⟩
  intro i m hm
  rw [intervalEffect, if_pos rfl]
  simp only [List.getElem?_map, hm, Option.map_some']

/-- Witness for C9 on the one-market list `[exMarketA]`. -/
theorem interval24h_short_circuit_witness :
    (intervalEffect "24h" [exMarketA] exResp).2 = [] ∧
    (intervalEffect "24h" [exMarketA] exResp).1.length = 1 ∧
    (intervalEffect "24h" [exMarketA] exResp).1[0]? =
      some { exMarketA with changeRate := JsVal.undef, rsi := JsVal.undef } := by
  obtain ⟨h1, h2, h3⟩ := interval24h_short_circuit [exMarketA] exResp
  exact ⟨h1, h2, h3 0 exMarketA rfl⟩

/-! ### Market snapshot fetcher: ranking and batching -/

theorem sortDesc_perm (l : List MarketWithData) : List.Perm (sortDesc l) l :=
  List.perm_insertionSort _ l

theorem sortDesc_sorted (l : List MarketWithData) :
    (sortDesc l).Sorted (fun a b => b.acc_trade_price_24h ≤ a.acc_trade_price_24h) :=
  List.sorted_insertionSort _ l

theorem sortDesc_pairwise_lt (l : List MarketWithData)
    (hd : (l.map (fun m => m.acc_trade_price_24h)).Nodup) :
    (sortDesc l).Pairwise (fun a b => b.acc_trade_price_24h < a.acc_trade_price_24h) := by
  have hvnodup : ((sortDesc l).map (fun m => m.acc_trade_price_24h)).Nodup :=
    (((sortDesc_perm l).map (fun m => m.acc_trade_price_24h)).nodup_iff).mpr hd
  have hpne : (sortDesc l).Pairwise
      (fun a b => a.acc_trade_price_24h ≠ b.acc_trade_price_24h) :=
    List.pairwise_map.mp hvnodup
  exact ((sortDesc_sorted l).and hpne).imp
    (fun h => lt_of_le_of_ne h.1 (Ne.symm h.2))

/-- C6: on merged records with pairwise distinct volumes, the ranking
step returns exactly the `min(N, 15)` records of highest
`acc_trade_price_24h`, in strictly descending volume order: its length
is `min(N, 15)`, it is strictly descending, all its elements come from
the input, and every excluded input record has strictly lower volume
than every included one. -/
theorem top15Markets_spec (combinedData : List MarketWithData)
    (hd : (combinedData.map (fun m => m.acc_trade_price_24h)).Nodup) :
    (top15Markets combinedData).length = min combinedData.length 15 ∧
    (top15Markets combinedData).Pairwise
      (fun a b => b.acc_trade_price_24h < a.acc_trade_price_24h) ∧
    (∀ x ∈ top15Markets combinedData, x ∈ combinedData) ∧
    (∀ x ∈ top15Markets combinedData, ∀ y ∈ combinedData,
      y ∉ top15Markets combinedData →
        y.acc_trade_price_24h < x.acc_trade_price_24h) := by
  have hperm := sortDesc_perm combinedData
  have hstrict := sortDesc_pairwise_lt combinedData hd
  refine ⟨?_, ?_, ?_, ?_⟩
  · rw [top15Markets, List.length_take, hperm.length_eq]
    omega
  · exact hstrict.sublist (List.take_sublist 15 (sortDesc combinedData))
  · intro x hx
    exact hperm.subset (List.take_subset 15 (sortDesc combinedData) hx)
  · intro x hx y hy hyn
    have hys : y ∈ sortDesc combinedData := hperm.mem_iff.mpr hy
    have hsplit : (sortDesc combinedData).take 15 ++ (sortDesc combinedData).drop 15 =
        sortDesc combinedData := List.take_append_drop 15 (sortDesc combinedData)
    have hydrop : y ∈ (sortDesc combinedData).drop 15 := by
      rcases List.mem_append.mp (by rw [hsplit]; exact hys) with h | h
      · exact absurd h hyn
      · exact h
    have hcross := (List.pairwise_append.mp (hsplit ▸ hstrict)).2.2
    exact hcross x hx y hydrop

/-- Witness for C6 on the two-market list `[exMarketA, exMarketB]`
(volumes 10 and 20). -/
theorem top15Markets_spec_witness :
    (top15Markets [exMarketA, exMarketB]).length = min 2 15 ∧
    (top15Markets [exMarketA, exMarketB]).Pairwise
      (fun a b => b.acc_trade_price_24h < a.acc_trade_price_24h) ∧
    (∀ x ∈ top15Markets [exMarketA, exMarketB], x ∈ [exMarketA, exMarketB]) ∧
    (∀ x ∈ top15Markets [exMarketA, exMarketB], ∀ y ∈ [exMarketA, exMarketB],
      y ∉ top15Markets [exMarketA, exMarketB] →
        y.acc_trade_price_24h < x.acc_trade_price_24h) :=
  top15Markets_spec [exMarketA, exMarketB] (by simp [exMarketA, exMarketB])

theorem batchAux_join (fuel : ℕ) :
    ∀ l : List String, l.length ≤ fuel → (batchAux fuel l).join = l := by
  induction fuel with
  | zero =>
      intro l hl
      have hnil : l = [] := List.length_eq_zero.mp (Nat.le_zero.mp hl)
      subst hnil
      rfl
  | succ fuel ih =>
      intro l hl
      cases l with
      | nil => rfl
      | cons c cs =>
          rw [batchAux]
          show (c :: cs).take BATCH_SIZE ++ (batchAux fuel ((c :: cs).drop BATCH_SIZE)).join =
            c :: cs
          rw [ih ((c :: cs).drop BATCH_SIZE) (by simp [BATCH_SIZE] at hl ⊢; omega)]
          exact List.take_append_drop BATCH_SIZE (c :: cs)

theorem batchAux_sizes (fuel : ℕ) :
    ∀ l : List String, ∀ b ∈ batchAux fuel l, 1 ≤ b.length ∧ b.length ≤ 100 := by
  induction fuel with
  | zero =>
      intro l b hb
      cases l with
      | nil => cases hb
      | cons c cs => cases hb
  | succ fuel ih =>
      intro l b hb
      cases l with
      | nil => cases hb
      | cons c cs =>
          rw [batchAux] at hb
          rcases List.mem_cons.mp hb with h | h
          · subst h
            constructor
            · simp [BATCH_SIZE]
            · simp [BATCH_SIZE]
          · exact ih _ b h

theorem batchAux_count (fuel : ℕ) :
    ∀ l : List String, l.length ≤ fuel →
      (batchAux fuel l).length = (l.length + 99) / 100 := by
  induction fuel with
  | zero =>
      intro l hl
      have hnil : l = [] := List.length_eq_zero.mp (Nat.le_zero.mp hl)
      subst hnil
      rfl
  | succ fuel ih =>
      intro l hl
      cases l with
      | nil => rfl
      | cons c cs =>
          rw [batchAux, List.length_cons]
          rw [ih ((c :: cs).drop BATCH_SIZE) (by simp [BATCH_SIZE] at hl ⊢; omega)]
          simp only [List.length_drop, List.length_cons, BATCH_SIZE]
          omega

theorem batchAux_cons_unfold (fuel : ℕ) (l : List String) (hl : l ≠ []) :
    batchAux (fuel + 1) l = l.take BATCH_SIZE :: batchAux fuel (l.drop BATCH_SIZE) := by
  cases l with
  | nil => exact absurd rfl hl
  | cons c cs => rfl

/-- C7: for `K` market codes the snapshot fetcher issues
`ceil(K/100)` ticker requests, each batch non-empty with at most 100
codes, their concatenation being the input in order; for 250 codes it
issues exactly 3 requests of sizes 100, 100 and 50. -/
theorem tickerBatches_spec (codes : List String) :
    (tickerBatches codes).length = (codes.length + 99) / 100 ∧
    (∀ b ∈ tickerBatches codes, 1 ≤ b.length ∧ b.length ≤ 100) ∧
    (tickerBatches codes).join = codes ∧
    (codes.length = 250 → (tickerBatches codes).map List.length = [100, 100, 50]) := by
  refine ⟨batchAux_count codes.length codes le_rfl,
    fun b hb => batchAux_sizes codes.length codes b hb,
    batchAux_join codes.length codes le_rfl, ?_⟩
  intro h250
  have hL1 : (codes.drop BATCH_SIZE).length = 150 := by
    simp [BATCH_SIZE, h250]
  have hL2 : ((codes.drop BATCH_SIZE).drop BATCH_SIZE).length = 50 := by
    simp [BATCH_SIZE, h250]
  have hL3 : (((codes.drop BATCH_SIZE).drop BATCH_SIZE).drop BATCH_SIZE).length = 0 := by
    simp [BATCH_SIZE, h250]
  have e1 : tickerBatches codes =
      codes.take BATCH_SIZE :: batchAux 249 (codes.drop BATCH_SIZE) := by
    rw [tickerBatches, h250]
    exact batchAux_cons_unfold 249 codes
      (by intro hnil; rw [hnil] at h250; exact absurd h250 (by norm_num))
  have e2 : batchAux 249 (codes.drop BATCH_SIZE) =
      (codes.drop BATCH_SIZE).take BATCH_SIZE ::
        batchAux 248 ((codes.drop BATCH_SIZE).drop BATCH_SIZE) :=
    batchAux_cons_unfold 248 _
      (by intro hnil; rw [hnil] at hL1; exact absurd hL1 (by norm_num))
  have e3 : batchAux 248 ((codes.drop BATCH_SIZE).drop BATCH_SIZE) =
      ((codes.drop BATCH_SIZE).drop BATCH_SIZE).take BATCH_SIZE ::
        batchAux 247 (((codes.drop BATCH_SIZE).drop BATCH_SIZE).drop BATCH_SIZE) :=
    batchAux_cons_unfold 247 _
      (by intro hnil; rw [hnil] at hL2; exact absurd hL2 (by norm_num))
  have e4 : batchAux 247 (((codes.drop BATCH_SIZE).drop BATCH_SIZE).drop BATCH_SIZE) = [] := by
    rw [List.length_eq_zero.mp hL3]
    rfl
  rw [e1, e2, e3, e4]
  simp [List.length_take, BATCH_SIZE, h250, hL1, hL2]

/-- Witness for C7 on a concrete list of 250 codes. -/
theorem tickerBatches_spec_witness :
    (tickerBatches (List.replicate 250 "KRW-BTC")).map List.length = [100, 100, 50] :=
  (tickerBatches_spec (List.replicate 250 "KRW-BTC")).2.2.2 (by rw [List.length_replicate])

/-! ### Volume formatter -/

/-- C10: `formatVolume` renders `v/10^12` with two decimals and suffix
`조` at or above `10^12`, `v/10^9` with two decimals and suffix `억` at
or above `10^9`, and otherwise `v/10^6` rounded to the nearest integer
with locale thousand-separators and suffix `백만`; concretely
`formatVolume 10^12 = "1.00조"`, `formatVolume 2.5·10^9 = "2.50억"` and
`formatVolume 999·10^6 = "999백만"`. -/
theorem formatVolume_spec :
    (∀ v : ℚ, 1000000000000 ≤ v →
      formatVolume v = toFixed2 (v / 1000000000000) ++ "조") ∧
    (∀ v : ℚ, v < 1000000000000 → 1000000000 ≤ v →
      formatVolume v = toFixed2 (v / 1000000000) ++ "억") ∧
    (∀ v : ℚ, 0 ≤ v → v < 1000000000 →
      formatVolume v = toLocaleStringInt (jsRound (v / 1000000)) ++ "백만") ∧
    formatVolume 1000000000000 = "1.00조" ∧
    formatVolume 2500000000 = "2.50억" ∧
    formatVolume 999000000 = "999백만" := by
  refine ⟨?_, ?_, ?_, ?_, ?_, ?_⟩
  · intro v hv
    simp only [formatVolume]
    rw [if_pos hv]
  · intro v hv1 hv2
    simp only [formatVolume]
    rw [if_neg (not_le.mpr hv1), if_pos hv2]
  · intro v hv0 hv1
    simp only [formatVolume]
    rw [if_neg (by linarith), if_neg (not_le.mpr hv1)]
  · simp only [formatVolume]
    rw [if_pos (by norm_num : (1000000000000:ℚ) ≤ 1000000000000)]
    rw [show (1000000000000:ℚ)/1000000000000 = 1 by norm_num]
    simp only [toFixed2]
    rw [show ((1:ℚ) * 100 + 1/2) = 201/2 by norm_num]
    rw [show ⌊(201/2 : ℚ)⌋ = 100 by rw [Int.floor_eq_iff] <;> norm_num]
    decide
  · simp only [formatVolume]
    rw [if_neg (by norm_num), if_pos (by norm_num : (1000000000:ℚ) ≤ 2500000000)]
    rw [show (2500000000:ℚ)/1000000000 = 5/2 by norm_num]
    simp only [toFixed2]
    rw [show ((5/2:ℚ) * 100 + 1/2) = 501/2 by norm_num]
    rw [show ⌊(501/2 : ℚ)⌋ = 250 by rw [Int.floor_eq_iff] <;> norm_num]
    decide
  · simp only [formatVolume]
    rw [if_neg (by norm_num), if_neg (by norm_num)]
    rw [show (999000000:ℚ)/1000000 = 999 by norm_num]
    simp only [jsRound]
    rw [show ((999:ℚ) + 1/2) = 1999/2 by norm_num]
    rw [show ⌊(1999/2 : ℚ)⌋ = 999 by rw [Int.floor_eq_iff] <;> norm_num]
    decide

/-- Witness for C10's quantified branch at `v = 3·10^12`. -/
theorem formatVolume_spec_witness :
    formatVolume 3000000000000 = toFixed2 ((3000000000000 : ℚ) / 1000000000000) ++ "조" :=
  formatVolume_spec.1 3000000000000 (by norm_num)

end UpbitRsiLive
